import Mathlib

/-!
A verification development for the `state-transition-analysis` repository:
a session ingestion/dedup store, a hierarchical session-state classifier,
and a metrics engine (transition matrices, channel metrics, time-to-state,
Sankey flow graph).  The Python source is shallowly embedded: DataFrames
become lists of records, timestamps become integers (seconds), SQL tables
become lists, and each source function becomes a Lean function of the same
shape.  Theorems then settle the specified properties of those functions.
-/

namespace STA

/-- A raw session record, as stored/loaded before classification
(`src/data_store.py` schema; only the columns the analysed functions read
are carried).  Boolean engagement flags may be missing (pandas `NaN`),
hence `Option Bool`; the acquisition channel column
`SESSION_FIRST_TRAFFIC_SOURCE_CHANNEL_GROUPING` may be null, hence
`Option String`.  Timestamps are integer seconds. -/
structure Session where
  user_id : Nat
  session_number : Int
  session_start : Int
  has_view_item : Option Bool := none
  has_add_to_cart : Option Bool := none
  has_begin_checkout : Option Bool := none
  has_purchase : Option Bool := none
  channel : Option String := none
  deriving DecidableEq, Repr

/-- A classified session row: a `Session` together with the `STATE` column
added by `assign_states`. -/
structure CRow extends Session where
  state : Nat
  deriving DecidableEq, Repr

/-- Embeds `_check_traffic_sources` from `src/state_assignment.py`, at a single
row: fill a null channel with `''`; if the pattern list is empty the result
is `False`; otherwise test whether the filled channel starts with any of
the configured prefixes (case-sensitive `str.startswith`). -/
def check_traffic_sources (channel : Option String) (patterns : List String) : Bool :=
  let filled := channel.getD ""
  if patterns = [] then false
  else patterns.any (fun p => filled.startsWith p)

/-- The per-row content of `assign_states` (`src/state_assignment.py`):
`np.select` over the hierarchy conditions, first match wins, default 1.
Null boolean flags are `fillna(False)`. -/
def assignStateRow (exploringSources : List String) (r : Session) : Nat :=
  if r.has_purchase.getD false then 4
  else if r.has_add_to_cart.getD false || r.has_begin_checkout.getD false then 3
  else if r.session_number > 1 ||
          (r.session_number == 1 && !(check_traffic_sources r.channel exploringSources)) then 2
  else 1

/-- Embeds `assign_states`: add the `STATE` column to every row of the table. -/
def assign_states (exploringSources : List String) (df : List Session) : List CRow :=
  df.map (fun r => { r with state := assignStateRow exploringSources r })

/-- The configuration fields validated by `Config.__post_init__`
(`src/config.py`).  Dates are integer day ordinals; `cohort_start` /
`cohort_end` are optional (`None` = use all data). -/
structure Config where
  cohort_start : Option Int := none
  cohort_end : Option Int := none
  cohort_granularity : String := "W"
  min_cohort_size : Int := 50
  max_sessions_for_sankey : Nat := 3
  exploring_traffic_sources : List String := ["Facebook"]
  deriving DecidableEq, Repr

/-- Embeds `Config.__post_init__` (`src/config.py`): raise on a granularity
outside `['D','W','M']`; raise when both cohort dates are set and
`cohort_start > cohort_end`; otherwise the constructed config is returned
unchanged.  (Python `if self.cohort_start and self.cohort_end` is the
both-not-`None` test, since `date` objects are always truthy.) -/
def postInitValidate (c : Config) : Except String Config :=
  if ¬ (c.cohort_granularity ∈ ["D", "W", "M"]) then
    .error "cohort_granularity must be one of ['D', 'W', 'M']"
  else
    match c.cohort_start, c.cohort_end with
    | some s, some e =>
        if s > e then .error "cohort_start must be before cohort_end"
        else .ok c
    | _, _ => .ok c

/-- Example row used to instantiate the classifier theorems: a first
session with both a purchase and an add-to-cart. -/
def purchaseCartRow : Session :=
  { user_id := 7, session_number := 1, session_start := 0,
    has_add_to_cart := some true, has_purchase := some true }

/-- C1: the state classifier is total and respects the precedence
4 > 3 > 2 > 1.  Every row of the output of `assign_states` carries exactly
one state, that state lies in {1,2,3,4}, and any row whose
`has_purchase` flag (null treated as false) is true is assigned state 4
regardless of the other flags.  Totality: the output has one row per input
row, each with exactly the one state computed by the classifier. -/
theorem assign_states_total_precedence (srcs : List String) (df : List Session) :
    (assign_states srcs df).length = df.length ∧
    ∀ c : CRow, c ∈ assign_states srcs df →
      (c.state = 1 ∨ c.state = 2 ∨ c.state = 3 ∨ c.state = 4) ∧
      (c.has_purchase.getD false = true → c.state = 4) := by
  constructor
  · simp [assign_states]
  · intro c hc
    simp only [assign_states, List.mem_map] at hc
    obtain ⟨r, _, rfl⟩ := hc
    constructor
    · simp only [assignStateRow]
      split
      · right; right; right; rfl
      · split
        · right; right; left; rfl
        · split
          · right; left; rfl
          · left; rfl
    · intro hp
      simp [assignStateRow, hp]

/-- Witness for C1: on a concrete first session with both
`has_purchase = true` and `has_add_to_cart = true`, the classified row is
produced and its state is 4, never 3. -/
theorem assign_states_total_precedence_witness :
    (⟨purchaseCartRow, 4⟩ : CRow) ∈ assign_states ["Facebook"] [purchaseCartRow] ∧
    (⟨purchaseCartRow, 4⟩ : CRow).state = 4 :=
  ⟨by decide,
   ((assign_states_total_precedence ["Facebook"] [purchaseCartRow]).2
      ⟨purchaseCartRow, 4⟩ (by decide)).2 (by decide)⟩

/-- A configuration with a non-positive `min_cohort_size` and otherwise
default fields, used to exhibit that `__post_init__` accepts it. -/
def zeroMinSizeConfig : Config :=
  { cohort_granularity := "W", min_cohort_size := 0 }

/-- C8 counterexample: construction does NOT reject a non-positive
`min_cohort_size`.  With granularity `"W"` and no cohort dates but
`min_cohort_size = 0` (non-positive), `__post_init__` succeeds instead of
raising, refuting the claim that a non-positive `min_cohort_size` causes a
construction-time error. -/
theorem postInitValidate_accepts_nonpositive_min_cohort_size :
    zeroMinSizeConfig.min_cohort_size ≤ 0 ∧
    postInitValidate zeroMinSizeConfig = .ok zeroMinSizeConfig := by
  constructor
  · decide
  · rfl

/-- C8 amended: configuration construction eagerly rejects an invalid
cohort granularity and a cohort start date after the cohort end date, and
succeeds exactly when the granularity is one of `D`/`W`/`M` and the dates
(when both present) are ordered; `min_cohort_size` is not validated at
all.  Moreover a successful construction returns the configuration
unchanged. -/
theorem postInitValidate_ok_iff (c : Config) :
    (postInitValidate c = .ok c ↔
      (c.cohort_granularity ∈ (["D", "W", "M"] : List String) ∧
        ∀ s e, c.cohort_start = some s → c.cohort_end = some e → s ≤ e)) ∧
    (∀ c', postInitValidate c = .ok c' → c' = c) := by
  unfold postInitValidate
  constructor
  · constructor
    · intro h
      split at h
      · exact absurd h (by simp)
      · rename_i hg
        rw [not_not] at hg
        refine ⟨hg, ?_⟩
        intro s e hs he
        rw [hs, he] at h
        simp only at h
        split at h
        · exact absurd h (by simp)
        · omega
    · rintro ⟨hg, hd⟩
      rw [if_neg (not_not_intro hg)]
      rcases hcs : c.cohort_start with _ | s
      · rcases hce : c.cohort_end with _ | e <;> simp
      · rcases hce : c.cohort_end with _ | e
        · simp
        · have := hd s e hcs hce
          simp only
          rw [if_neg (by omega)]
  · intro c' h
    split at h
    · exact absurd h (by simp)
    · split at h
      · split at h
        · exact absurd h (by simp)
        · exact (Except.ok.injEq _ _ ▸ h).symm ▸ rfl
      · exact (Except.ok.injEq _ _ ▸ h).symm ▸ rfl

/-! ## Session store (`src/data_store.py`) -/

/-- A stored session row as the store sees it: its `SESSION_ID` primary
key plus the remaining columns, abstracted as an opaque `content` string
(the dedup logic reads only `SESSION_ID`). -/
structure SRow where
  session_id : String
  content : String := ""
  deriving DecidableEq, Repr

/-- The `DataStore`'s persistent state: the `sessions` table and the
`log_of_imports` table (primary key `file_hash`, payload `rows_imported`). -/
structure Store where
  sessions : List SRow := []
  log_of_imports : List (String × Nat) := []
  deriving DecidableEq, Repr

/-- The dictionary returned by `DataStore.ingest_csv`: `status`, and (on
the success path only) `new_rows` and `duplicate_rows`.  The skipped
result carries neither count, hence the `Option`s. -/
structure IngestResult where
  status : String
  new_rows : Option Nat := none
  duplicate_rows : Option Nat := none
  deriving DecidableEq, Repr

/-- Embeds `DataStore._already_imported`: is there an `log_of_imports` row with this
`file_hash`? -/
def already_imported (s : Store) (fileHash : String) : Bool :=
  s.log_of_imports.any (fun e => e.1 = fileHash)

/-- SQLite `INSERT OR REPLACE INTO log_of_imports`: the row with the same
primary key (if any) is replaced by the new one. -/
def logInsertOrReplace (log : List (String × Nat)) (fileHash : String) (n : Nat) :
    List (String × Nat) :=
  log.filter (fun e => e.1 ≠ fileHash) ++ [(fileHash, n)]

/-- Embeds `DataStore.ingest_csv` composed with `_ingest_to_sqlite`
(`src/data_store.py`): if `skip_if_imported` and the fingerprint is in
the log of imports, return `skipped` without touching session storage;
admit exactly the batch rows whose `SESSION_ID` is not already stored
(`~df['SESSION_ID'].isin(existing)`), append them, and
insert-or-replace the import-log entry for this fingerprint. -/
def ingest_csv (s : Store) (batch : List SRow) (fileHash : String)
    (skipIfImported : Bool) : Store × IngestResult :=
  if skipIfImported ∧ already_imported s fileHash then
    (s, { status := "skipped" })
  else
    let existing := s.sessions.map (fun r => r.session_id)
    let newSessions := batch.filter (fun r => decide (¬ r.session_id ∈ existing))
    ({ sessions := s.sessions ++ newSessions,
       log_of_imports := logInsertOrReplace s.log_of_imports fileHash newSessions.length },
     { status := "success",
       new_rows := some newSessions.length,
       duplicate_rows := some (batch.length - newSessions.length) })

/-- C2: session-id uniqueness across batches.  Starting from a store that
has not seen either fingerprint and does not hold `sid`, ingesting batch
`b1` (containing `sid` exactly once) under fingerprint `fh1` and then
batch `b2` (also containing `sid`) under a different fingerprint `fh2`
leaves `sid` stored exactly once; every stored row with that id comes from
`b1` (the second batch's rows with that id are discarded, not merged); and
the second result's `duplicate_rows` counts all of `b2`'s rows with that
id. -/
theorem ingest_shared_session_id_once (s0 : Store) (b1 b2 : List SRow)
    (fh1 fh2 sid : String)
    (hfh : fh1 ≠ fh2)
    (hlog : ∀ e ∈ s0.log_of_imports, e.1 ≠ fh1 ∧ e.1 ≠ fh2)
    (hsid0 : ∀ r ∈ s0.sessions, r.session_id ≠ sid)
    (hb1 : b1.countP (fun r => decide (r.session_id = sid)) = 1)
    (hb2 : ∃ r ∈ b2, r.session_id = sid) :
    let s1 := (ingest_csv s0 b1 fh1 true).1
    let out2 := ingest_csv s1 b2 fh2 true
    out2.1.sessions.countP (fun r => decide (r.session_id = sid)) = 1 ∧
    (∀ r ∈ out2.1.sessions, r.session_id = sid → r ∈ b1) ∧
    (∃ d, out2.2.duplicate_rows = some d ∧
      1 ≤ b2.countP (fun r => decide (r.session_id = sid)) ∧
      b2.countP (fun r => decide (r.session_id = sid)) ≤ d) := by
  intro s1 out2
  have hskip1 : already_imported s0 fh1 = false := by
    simp only [already_imported, List.any_eq_false]
    intro e he
    simpa using (hlog e he).1
  have hs1s : s1.sessions = s0.sessions ++
      b1.filter (fun r => decide (¬ r.session_id ∈ s0.sessions.map (fun q => q.session_id))) := by
    show ((ingest_csv s0 b1 fh1 true).1).sessions = _
    unfold ingest_csv
    rw [if_neg (by simp [hskip1])]
  have hs1log : s1.log_of_imports = logInsertOrReplace s0.log_of_imports fh1
      (b1.filter (fun r => decide (¬ r.session_id ∈ s0.sessions.map (fun q => q.session_id)))).length := by
    show ((ingest_csv s0 b1 fh1 true).1).log_of_imports = _
    unfold ingest_csv
    rw [if_neg (by simp [hskip1])]
  have hskip2 : already_imported s1 fh2 = false := by
    simp only [already_imported, hs1log, logInsertOrReplace, List.any_eq_false]
    intro e he
    rcases List.mem_append.mp he with h | h
    · simpa using (hlog e (List.mem_of_mem_filter h)).2
    · simp only [List.mem_singleton] at h
      subst h
      simpa using hfh
  have houts : out2.1.sessions = s1.sessions ++
      b2.filter (fun r => decide (¬ r.session_id ∈ s1.sessions.map (fun q => q.session_id))) := by
    show ((ingest_csv s1 b2 fh2 true).1).sessions = _
    unfold ingest_csv
    rw [if_neg (by simp [hskip2])]
  have houtd : out2.2.duplicate_rows = some (b2.length -
      (b2.filter (fun r => decide (¬ r.session_id ∈ s1.sessions.map (fun q => q.session_id)))).length) := by
    show ((ingest_csv s1 b2 fh2 true).2).duplicate_rows = _
    unfold ingest_csv
    rw [if_neg (by simp [hskip2])]
  -- the sid row of b1 is admitted by the first ingestion
  have hnotin0 : ∀ r : SRow, r.session_id = sid →
      (decide (¬ r.session_id ∈ s0.sessions.map (fun q => q.session_id))) = true := by
    intro r hr
    simp only [decide_eq_true_eq]
    intro hmem
    rw [List.mem_map] at hmem
    obtain ⟨q, hq, hqid⟩ := hmem
    exact hsid0 q hq (hqid.trans hr)
  have hcount1 : s1.sessions.countP (fun r => decide (r.session_id = sid)) = 1 := by
    rw [hs1s]
    simp only [List.countP_append, List.countP_filter]
    have h0 : s0.sessions.countP (fun r => decide (r.session_id = sid)) = 0 := by
      rw [List.countP_eq_zero]
      intro r hr
      simp [hsid0 r hr]
    rw [h0]
    have : (b1.countP fun a => decide (a.session_id = sid) &&
        decide (¬ a.session_id ∈ s0.sessions.map (fun q => q.session_id))) =
        b1.countP (fun r => decide (r.session_id = sid)) := by
      apply List.countP_congr
      intro r _
      by_cases hr : r.session_id = sid
      · simp [hr]
        exact fun x hx => hsid0 x hx
      · simp [hr]
    omega
  have hsid_in_s1 : sid ∈ s1.sessions.map (fun q => q.session_id) := by
    have : 0 < s1.sessions.countP (fun r => decide (r.session_id = sid)) := by omega
    rw [List.countP_pos_iff] at this
    obtain ⟨r, hr, hrid⟩ := this
    simp only [decide_eq_true_eq] at hrid
    exact List.mem_map.mpr ⟨r, hr, hrid⟩
  refine ⟨?_, ?_, ?_⟩
  · rw [houts]
    simp only [List.countP_append, List.countP_filter, hcount1]
    have : (b2.countP fun a => decide (a.session_id = sid) &&
        decide (¬ a.session_id ∈ s1.sessions.map (fun r => r.session_id))) = 0 := by
      rw [List.countP_eq_zero]
      intro r _
      by_cases hr : r.session_id = sid
      · simp [hr, hsid_in_s1]
      · simp [hr]
    omega
  · intro r hr hrid
    rw [houts] at hr
    simp only [List.mem_append] at hr
    rcases hr with hr | hr
    · rw [hs1s] at hr
      simp only [List.mem_append] at hr
      rcases hr with hr | hr
      · exact absurd hrid (hsid0 r hr)
      · exact List.mem_of_mem_filter hr
    · exfalso
      have := List.of_mem_filter hr
      rw [hrid] at this
      simp only [decide_eq_true_eq] at this
      exact this hsid_in_s1
  · rw [houtd]
    refine ⟨_, rfl, ?_, ?_⟩
    · rw [Nat.one_le_iff_ne_zero, ← Nat.pos_iff_ne_zero, List.countP_pos_iff]
      obtain ⟨r, hr, hrid⟩ := hb2
      exact ⟨r, hr, by simp [hrid]⟩
    have hlen : (b2.filter
        (fun r => decide (¬ r.session_id ∈ s1.sessions.map (fun q => q.session_id)))).length =
        b2.countP (fun r => decide (¬ r.session_id ∈ s1.sessions.map (fun q => q.session_id))) :=
      (List.countP_eq_length_filter _ _).symm
    have hmono : b2.countP (fun r => decide (r.session_id = sid)) ≤
        b2.countP (fun r => decide (r.session_id ∈ s1.sessions.map (fun q => q.session_id))) := by
      apply List.countP_mono_left
      intro r _ hr
      simp only [decide_eq_true_eq] at hr ⊢
      rw [hr]
      exact hsid_in_s1
    have hsplit : b2.countP (fun r => decide (r.session_id ∈ s1.sessions.map (fun q => q.session_id))) +
        b2.countP (fun r => decide (¬ r.session_id ∈ s1.sessions.map (fun q => q.session_id))) =
        b2.length := by
      have h1 := List.length_eq_countP_add_countP
        (p := fun r : SRow => decide (r.session_id ∈ s1.sessions.map (fun q => q.session_id))) b2
      have h2 : (b2.countP fun a =>
          decide (¬ decide (a.session_id ∈ s1.sessions.map (fun q => q.session_id)) = true)) =
          b2.countP (fun r => decide (¬ r.session_id ∈ s1.sessions.map (fun q => q.session_id))) := by
        apply List.countP_congr
        intro r _
        simp
      omega
    omega

/-- Witness for C2: a fresh store, batch `[{id a, content A}]` under
fingerprint `f1`, then batch `[{id a, content B}]` under `f2`: the id `a`
is stored once, coming from the first batch, and the second result counts
one duplicate row. -/
theorem ingest_shared_session_id_once_witness :
    (("f1" : String) ≠ "f2") ∧
    ((ingest_csv (ingest_csv ⟨[], []⟩ [⟨"a", "A"⟩] "f1" true).1
        [⟨"a", "B"⟩] "f2" true).1.sessions.countP
          (fun r => decide (r.session_id = "a")) = 1 ∧
     (∀ r ∈ (ingest_csv (ingest_csv ⟨[], []⟩ [⟨"a", "A"⟩] "f1" true).1
        [⟨"a", "B"⟩] "f2" true).1.sessions, r.session_id = "a" → r ∈ [(⟨"a", "A"⟩ : SRow)]) ∧
     (∃ d, (ingest_csv (ingest_csv ⟨[], []⟩ [⟨"a", "A"⟩] "f1" true).1
        [⟨"a", "B"⟩] "f2" true).2.duplicate_rows = some d ∧
       1 ≤ ([(⟨"a", "B"⟩ : SRow)].countP (fun r => decide (r.session_id = "a"))) ∧
       ([(⟨"a", "B"⟩ : SRow)].countP (fun r => decide (r.session_id = "a"))) ≤ d)) :=
  ⟨by decide,
   ingest_shared_session_id_once ⟨[], []⟩ [⟨"a", "A"⟩] [⟨"a", "B"⟩] "f1" "f2" "a"
     (by decide) (by intro e he; cases he) (by intro r hr; cases hr) (by decide)
     ⟨⟨"a", "B"⟩, by decide, rfl⟩⟩

/-- C3 counterexample: re-ingesting the same fingerprint is skipped, but
the skipped result carries NO `new_rows` field at all (the returned dict
is `{'status': 'skipped', 'reason': 'already_imported', 'file': ...}`),
so the second call does not yield `new_rows = 0` as claimed. -/
theorem ingest_skipped_new_rows_absent :
    (ingest_csv (ingest_csv ⟨[], []⟩ [⟨"a", "A"⟩] "f1" true).1
        [⟨"a", "A"⟩] "f1" true).2.status = "skipped" ∧
    (ingest_csv (ingest_csv ⟨[], []⟩ [⟨"a", "A"⟩] "f1" true).1
        [⟨"a", "A"⟩] "f1" true).2.new_rows ≠ some 0 := by
  constructor
  · rfl
  · decide

/-- C3 amended: batch ingestion is idempotent on the fingerprint.  For any
store, re-ingesting the same batch under the same fingerprint with
`skip_if_imported = true` returns status `skipped`, leaves the store (and
hence the total stored row count) exactly as it was, and carries no
`new_rows` count in the skipped result (`new_rows` is absent/`none`,
rather than `0`). -/
theorem ingest_same_fingerprint_skipped (s : Store) (batch : List SRow)
    (fileHash : String) :
    let s1 := (ingest_csv s batch fileHash true).1
    let out2 := ingest_csv s1 batch fileHash true
    out2.2.status = "skipped" ∧ out2.2.new_rows = none ∧
    out2.1 = s1 ∧ out2.1.sessions.length = s1.sessions.length := by
  intro s1 out2
  have hin : already_imported s1 fileHash = true := by
    simp only [s1, ingest_csv]
    split
    · rename_i hcond
      exact hcond.2
    · simp only [already_imported, logInsertOrReplace, List.any_append]
      simp
  have : out2 = (s1, { status := "skipped" }) := by
    simp only [out2, ingest_csv, hin, and_true, if_true, true_and]
  rw [this]
  exact ⟨rfl, rfl, rfl, rfl⟩

/-- Witness for C8 amended: a concrete valid configuration (granularity
`"D"`, dates 5 ≤ 9) is accepted, via the characterization. -/
theorem postInitValidate_ok_iff_witness :
    postInitValidate
        { cohort_start := some 5, cohort_end := some 9,
          cohort_granularity := "D" } = .ok
        { cohort_start := some 5, cohort_end := some 9,
          cohort_granularity := "D" } :=
  (postInitValidate_ok_iff _).1.mpr
    ⟨by decide, by intro s e hs he; injection hs with h1; injection he with h2; omega⟩

/-! ## Rounding and sorting helpers shared by the metrics embedding -/

/-- Round a rational to the nearest integer, ties to even — the rounding
used by numpy/pandas `.round`. -/
def roundTiesEven (x : ℚ) : ℤ :=
  if x - ⌊x⌋ < 1/2 then ⌊x⌋
  else if x - ⌊x⌋ > 1/2 then ⌊x⌋ + 1
  else if ⌊x⌋ % 2 = 0 then ⌊x⌋ else ⌊x⌋ + 1

/-- pandas `.round(1)`: round to one decimal place, ties to even. -/
def round1 (x : ℚ) : ℚ := (roundTiesEven (x * 10) : ℚ) / 10

theorem roundTiesEven_abs (x : ℚ) : |((roundTiesEven x : ℤ) : ℚ) - x| ≤ 1/2 := by
  have h0 : (0 : ℚ) ≤ x - ⌊x⌋ := sub_nonneg.mpr (Int.floor_le x)
  have h1 : x - ⌊x⌋ < 1 := by
    have := Int.lt_floor_add_one x
    linarith
  unfold roundTiesEven
  split
  · rename_i h
    rw [abs_le]
    constructor <;> linarith
  · split
    · rename_i h h'
      rw [abs_le]
      push_cast
      constructor <;> linarith
    · split <;>
      · rename_i h h' _
        rw [abs_le]
        push_cast
        constructor <;> linarith

theorem round1_abs (x : ℚ) : |round1 x - x| ≤ 1/20 := by
  have h := roundTiesEven_abs (x * 10)
  have hrw : round1 x - x = (((roundTiesEven (x * 10) : ℤ) : ℚ) - x * 10) / 10 := by
    unfold round1
    ring
  rw [hrw, abs_div]
  rw [abs_of_pos (by norm_num : (0:ℚ) < 10)]
  rw [div_le_iff₀ (by norm_num : (0:ℚ) < 10)]
  linarith

/-- Insert `a` after every already-placed element whose key is `≤` its
own: the insertion step of a stable sort. -/
def insertStable {α : Type} (le : α → α → Bool) (a : α) : List α → List α
  | [] => [a]
  | b :: t => if le b a then b :: insertStable le a t else a :: b :: t

/-- Stable insertion sort (models pandas `sort_values`, which is stable
for multi-column lexsort; equal keys keep their original order). -/
def stableSort {α : Type} (le : α → α → Bool) (l : List α) : List α :=
  l.foldl (fun acc a => insertStable le a acc) []

theorem mem_insertStable {α : Type} (le : α → α → Bool) (a x : α) (l : List α) :
    x ∈ insertStable le a l ↔ x = a ∨ x ∈ l := by
  induction l with
  | nil => simp [insertStable]
  | cons b t ih =>
    simp only [insertStable]
    split
    · rw [List.mem_cons, ih, List.mem_cons]
      tauto
    · rw [List.mem_cons]

theorem mem_stableSort_aux {α : Type} (le : α → α → Bool) (x : α) :
    ∀ (l acc : List α),
      (x ∈ l.foldl (fun acc a => insertStable le a acc) acc ↔ x ∈ acc ∨ x ∈ l) := by
  intro l
  induction l with
  | nil => simp
  | cons b t ih =>
    intro acc
    simp only [List.foldl_cons, ih, mem_insertStable, List.mem_cons]
    tauto

theorem mem_stableSort {α : Type} (le : α → α → Bool) (x : α) (l : List α) :
    x ∈ stableSort le l ↔ x ∈ l := by
  unfold stableSort
  rw [mem_stableSort_aux]
  simp

/-! ## Session-level transition matrix
(`calculate_transition_matrix`, `src/metrics.py`) -/

/-- A user's rows in `SESSION_NUMBER` order — the effect of
`sort_values(['USER_ID','SESSION_NUMBER'])` followed by
`groupby('USER_ID')` on that user's slice. -/
def userSessions (df : List CRow) (u : Nat) : List CRow :=
  stableSort (fun a b => a.session_number ≤ b.session_number)
    (df.filter (fun r => decide (r.user_id = u)))

/-- The distinct users of the table (order is irrelevant to the counts
aggregated below). -/
def usersOf (df : List CRow) : List Nat :=
  (df.map (fun r => r.user_id)).dedup

/-- Consecutive (previous-state, state) pairs of one user's ordered
session list — the effect of `groupby('USER_ID')['STATE'].shift(1)`
followed by dropping the first session's NaN row. -/
def pairsOf : List CRow → List (Nat × Nat)
  | [] => []
  | [_] => []
  | a :: b :: t => (a.state, b.state) :: pairsOf (b :: t)

/-- All session-to-session transitions of the table. -/
def transitionPairs (df : List CRow) : List (Nat × Nat) :=
  (usersOf df).flatMap (fun u => pairsOf (userSessions df u))

/-- The (from, to) cell of the `crosstab` count matrix. -/
def transitionCount (df : List CRow) (i j : Nat) : Nat :=
  (transitionPairs df).countP (fun p => decide (p = (i, j)))

/-- The row-sum used by `crosstab(..., normalize='index')`: the number of
transitions leaving state `i` (to any state). -/
def transitionRowTotal (df : List CRow) (i : Nat) : Nat :=
  (transitionPairs df).countP (fun p => decide (p.1 = i))

/-- One cell of `calculate_transition_matrix`: with `normalize`, the
crosstab row-normalized value ×100 rounded to one decimal; a from-state
that never occurs as a predecessor has no crosstab row and is filled with
0 by the final `reindex(..., fill_value=0)`.  Without `normalize`, the raw
count. -/
def calculate_transition_matrix (df : List CRow) (normalize : Bool) (i j : Nat) : ℚ :=
  if normalize then
    let t := transitionRowTotal df i
    if t = 0 then 0
    else round1 ((transitionCount df i j : ℚ) * 100 / (t : ℚ))
  else (transitionCount df i j : ℚ)

theorem pairsOf_states (l : List CRow) :
    ∀ p ∈ pairsOf l, (∃ a ∈ l, a.state = p.1) ∧ (∃ b ∈ l, b.state = p.2) := by
  induction l with
  | nil => intro p hp; cases hp
  | cons a t ih =>
    cases t with
    | nil => intro p hp; cases hp
    | cons b t' =>
      intro p hp
      rw [show pairsOf (a :: b :: t') = (a.state, b.state) :: pairsOf (b :: t') from rfl,
        List.mem_cons] at hp
      rcases hp with rfl | hp
      · exact ⟨⟨a, List.mem_cons_self .., rfl⟩,
          ⟨b, List.mem_cons_of_mem _ (List.mem_cons_self ..), rfl⟩⟩
      · obtain ⟨⟨x, hx, hx'⟩, ⟨y, hy, hy'⟩⟩ := ih p hp
        exact ⟨⟨x, List.mem_cons_of_mem _ hx, hx'⟩, ⟨y, List.mem_cons_of_mem _ hy, hy'⟩⟩

theorem transitionPairs_states (df : List CRow) :
    ∀ p ∈ transitionPairs df,
      (∃ r ∈ df, r.state = p.1) ∧ (∃ r ∈ df, r.state = p.2) := by
  intro p hp
  rw [transitionPairs, List.mem_flatMap] at hp
  obtain ⟨u, _, hpu⟩ := hp
  obtain ⟨⟨x, hx, hx'⟩, ⟨y, hy, hy'⟩⟩ := pairsOf_states _ p hpu
  rw [userSessions, mem_stableSort, List.mem_filter] at hx hy
  exact ⟨⟨x, hx.1, hx'⟩, ⟨y, hy.1, hy'⟩⟩

theorem countP_fst_eq_sum (i : Nat) (L : List (Nat × Nat))
    (h : ∀ p ∈ L, p.1 = i → (p.2 = 1 ∨ p.2 = 2 ∨ p.2 = 3 ∨ p.2 = 4)) :
    L.countP (fun p => decide (p.1 = i)) =
      L.countP (fun p => decide (p = (i, 1))) + L.countP (fun p => decide (p = (i, 2))) +
      L.countP (fun p => decide (p = (i, 3))) + L.countP (fun p => decide (p = (i, 4))) := by
  induction L with
  | nil => simp
  | cons p L ih =>
    obtain ⟨pa, pb⟩ := p
    have hL := ih (fun q hq hq' => h q (List.mem_cons_of_mem _ hq) hq')
    by_cases hpi : pa = i
    · subst hpi
      have hb := h (pa, pb) (List.mem_cons_self ..) rfl
      simp only [List.countP_cons, hL]
      rcases hb with rfl | rfl | rfl | rfl <;> simp <;> omega
    · simp only [List.countP_cons, hL]
      simp [hpi, Prod.mk.injEq]

/-- C4: for a classified table (every state in 1..4), each row of the
normalized session-level transition matrix either is all-zero (the
from-state never occurs as a predecessor, so `crosstab` omits the row and
`reindex` fills it with 0 — never NaN) or sums to 100 up to the one-decimal
rounding of its four cells (within ±0.2). -/
theorem transition_matrix_row_sums (df : List CRow) (_hne : df ≠ [])
    (hcls : ∀ r ∈ df, 1 ≤ r.state ∧ r.state ≤ 4) (i : Nat) :
    (transitionRowTotal df i = 0 ∧
      calculate_transition_matrix df true i 1 = 0 ∧
      calculate_transition_matrix df true i 2 = 0 ∧
      calculate_transition_matrix df true i 3 = 0 ∧
      calculate_transition_matrix df true i 4 = 0) ∨
    |(calculate_transition_matrix df true i 1 + calculate_transition_matrix df true i 2 +
      calculate_transition_matrix df true i 3 + calculate_transition_matrix df true i 4)
      - 100| ≤ 1/5 := by
  by_cases ht : transitionRowTotal df i = 0
  · left
    refine ⟨ht, ?_, ?_, ?_, ?_⟩ <;> simp [calculate_transition_matrix, ht]
  · right
    have hsnd : ∀ p ∈ transitionPairs df, p.1 = i →
        (p.2 = 1 ∨ p.2 = 2 ∨ p.2 = 3 ∨ p.2 = 4) := by
      intro p hp _
      obtain ⟨_, ⟨r, hr, hr'⟩⟩ := transitionPairs_states df p hp
      have := hcls r hr
      omega
    have hsum : transitionCount df i 1 + transitionCount df i 2 +
        transitionCount df i 3 + transitionCount df i 4 = transitionRowTotal df i := by
      rw [transitionRowTotal, countP_fst_eq_sum i _ hsnd]
      rfl
    have htpos : (0 : ℚ) < (transitionRowTotal df i : ℚ) := by
      exact_mod_cast Nat.pos_of_ne_zero ht
    have hx : (transitionCount df i 1 : ℚ) * 100 / (transitionRowTotal df i : ℚ) +
        (transitionCount df i 2 : ℚ) * 100 / (transitionRowTotal df i : ℚ) +
        (transitionCount df i 3 : ℚ) * 100 / (transitionRowTotal df i : ℚ) +
        (transitionCount df i 4 : ℚ) * 100 / (transitionRowTotal df i : ℚ) = 100 := by
      have hs : (transitionCount df i 1 : ℚ) + (transitionCount df i 2 : ℚ) +
          (transitionCount df i 3 : ℚ) + (transitionCount df i 4 : ℚ) =
          (transitionRowTotal df i : ℚ) := by
        exact_mod_cast hsum
      field_simp
      linarith
    have he : ∀ j, calculate_transition_matrix df true i j =
        round1 ((transitionCount df i j : ℚ) * 100 / (transitionRowTotal df i : ℚ)) := by
      intro j
      simp [calculate_transition_matrix, ht]
    rw [he 1, he 2, he 3, he 4]
    have b1 := abs_le.mp (round1_abs ((transitionCount df i 1 : ℚ) * 100 / (transitionRowTotal df i : ℚ)))
    have b2 := abs_le.mp (round1_abs ((transitionCount df i 2 : ℚ) * 100 / (transitionRowTotal df i : ℚ)))
    have b3 := abs_le.mp (round1_abs ((transitionCount df i 3 : ℚ) * 100 / (transitionRowTotal df i : ℚ)))
    have b4 := abs_le.mp (round1_abs ((transitionCount df i 4 : ℚ) * 100 / (transitionRowTotal df i : ℚ)))
    rw [abs_le]
    constructor <;> linarith

/-- A concrete classified table: two users with two sessions each,
transitioning 1→2 and 1→3. -/
def exampleTable : List CRow :=
  [⟨⟨1, 1, 0, none, none, none, none, none⟩, 1⟩,
   ⟨⟨1, 2, 10, none, none, none, none, none⟩, 2⟩,
   ⟨⟨2, 1, 0, none, none, none, none, none⟩, 1⟩,
   ⟨⟨2, 2, 10, none, none, none, none, none⟩, 3⟩]

/-- Witness for C4: on `exampleTable` (non-empty, classified), row 1 of
the normalized matrix satisfies the row-sum property (here its cells are
50.0, 50.0, 0, 0). -/
theorem transition_matrix_row_sums_witness :
    (exampleTable ≠ [] ∧ ∀ r ∈ exampleTable, 1 ≤ r.state ∧ r.state ≤ 4) ∧
    ((transitionRowTotal exampleTable 1 = 0 ∧
      calculate_transition_matrix exampleTable true 1 1 = 0 ∧
      calculate_transition_matrix exampleTable true 1 2 = 0 ∧
      calculate_transition_matrix exampleTable true 1 3 = 0 ∧
      calculate_transition_matrix exampleTable true 1 4 = 0) ∨
    |(calculate_transition_matrix exampleTable true 1 1 +
      calculate_transition_matrix exampleTable true 1 2 +
      calculate_transition_matrix exampleTable true 1 3 +
      calculate_transition_matrix exampleTable true 1 4) - 100| ≤ 1/5) :=
  ⟨⟨by decide, by decide⟩,
   transition_matrix_row_sums exampleTable (by decide) (by decide) 1⟩

/-! ## User-level "ever" transition matrix
(`calculate_user_ever_transition_matrix`, `src/metrics.py`, and the
diagonal rendering of `dashboard/sections/transitions.py`) -/

/-- One row of the `groupby(['USER_ID','STATE'])['SESSION_NUMBER']
.agg(first_session='min', last_session='max')` table. -/
structure UserStateAgg where
  user_id : Nat
  state : Nat
  first_session : Int
  last_session : Int
  deriving DecidableEq, Repr

/-- The `SESSION_NUMBER`s of one `(USER_ID, STATE)` group. -/
def stateSessionNums (df : List CRow) (u s : Nat) : List Int :=
  (df.filter (fun r => decide (r.user_id = u ∧ r.state = s))).map
    (fun r => r.session_number)

/-- Earliest session number at which user `u` was observed in state `s`
(`none` when never observed). -/
def first_session (df : List CRow) (u s : Nat) : Option Int :=
  (stateSessionNums df u s).min?

/-- Latest session number at which user `u` was observed in state `s`. -/
def last_session (df : List CRow) (u s : Nat) : Option Int :=
  (stateSessionNums df u s).max?

/-- The `user_state` aggregation table: one row per observed
`(USER_ID, STATE)` group with that group's min and max session number. -/
def user_state (df : List CRow) : List UserStateAgg :=
  ((df.map (fun r => (r.user_id, r.state))).dedup).filterMap (fun p =>
    match (stateSessionNums df p.1 p.2).min?, (stateSessionNums df p.1 p.2).max? with
    | some f, some l => some ⟨p.1, p.2, f, l⟩
    | _, _ => none)

/-- The `valid` rows of the self-merge on `USER_ID`: all
(from-aggregate, to-aggregate) pairs of one user with
`first_session_from < last_session_to` and distinct states. -/
def everValidPairs (df : List CRow) : List (UserStateAgg × UserStateAgg) :=
  (user_state df).flatMap (fun a => (user_state df).filterMap (fun b =>
    if a.user_id = b.user_id ∧ a.first_session < b.last_session ∧ a.state ≠ b.state
    then some (a, b) else none))

/-- The count matrix cell: distinct users among the valid pairs with the
given from- and to-state (`groupby(['STATE_from','STATE_to'])['USER_ID']
.nunique()`; cells with no valid pair keep the initial 0). -/
def everCount (df : List CRow) (i j : Nat) : Nat :=
  (((everValidPairs df).filter
      (fun ab => decide (ab.1.state = i ∧ ab.2.state = j))).map
    (fun ab => ab.1.user_id)).dedup.length

/-- Embeds `df.groupby('STATE')['USER_ID'].nunique()` at state `s`: the number
of distinct users ever observed in `s`. -/
def usersEverInState (df : List CRow) (s : Nat) : Nat :=
  ((df.filter (fun r => decide (r.state = s))).map (fun r => r.user_id)).dedup.length

/-- One cell of `calculate_user_ever_transition_matrix`: the user count,
divided on normalization by the number of distinct users ever observed in
the row's state (only when that count is positive) ×100, rounded to one
decimal. -/
def calculate_user_ever_transition_matrix (df : List CRow) (normalize : Bool)
    (i j : Nat) : ℚ :=
  if normalize then
    if 0 < usersEverInState df i then
      round1 ((everCount df i j : ℚ) / (usersEverInState df i : ℚ) * 100)
    else (everCount df i j : ℚ)
  else (everCount df i j : ℚ)

/-- The per-cell diagonal handling of the transition-matrix heatmap
(`dashboard/sections/transitions.py`): for the user-level matrix the
diagonal cell's value is replaced by `None` (rendered empty), all other
cells keep their numeric value. -/
def transitions_render_cell (userLevel : Bool) (i j : Nat) (v : ℚ) : Option ℚ :=
  if userLevel ∧ i = j then none else some v

theorem round1_zero : round1 0 = 0 := by
  norm_num [round1, roundTiesEven]

theorem mem_user_state (df : List CRow) (x : UserStateAgg) :
    x ∈ user_state df ↔
      ((x.user_id, x.state) ∈ df.map (fun r => (r.user_id, r.state)) ∧
        first_session df x.user_id x.state = some x.first_session ∧
        last_session df x.user_id x.state = some x.last_session) := by
  obtain ⟨xu, xs, xf, xl⟩ := x
  unfold user_state first_session last_session
  rw [List.mem_filterMap]
  constructor
  · rintro ⟨p, hp, hf⟩
    rcases hm1 : (stateSessionNums df p.1 p.2).min? with _ | f <;>
      rcases hm2 : (stateSessionNums df p.1 p.2).max? with _ | l <;>
        rw [hm1, hm2] at hf <;> simp only [] at hf
    · cases hf
    · cases hf
    · cases hf
    · injection hf with hf
      injection hf with h1 h2 h3 h4
      subst h1; subst h2; subst h3; subst h4
      exact ⟨List.mem_dedup.mp hp, hm1, hm2⟩
  · rintro ⟨hkey, hmin, hmax⟩
    refine ⟨(xu, xs), List.mem_dedup.mpr hkey, ?_⟩
    rw [hmin, hmax]

theorem mem_everValidPairs (df : List CRow) (ab : UserStateAgg × UserStateAgg) :
    ab ∈ everValidPairs df ↔
      (ab.1 ∈ user_state df ∧ ab.2 ∈ user_state df ∧
        ab.1.user_id = ab.2.user_id ∧ ab.1.first_session < ab.2.last_session ∧
        ab.1.state ≠ ab.2.state) := by
  obtain ⟨a, b⟩ := ab
  unfold everValidPairs
  rw [List.mem_flatMap]
  constructor
  · rintro ⟨a', ha', hb'⟩
    rw [List.mem_filterMap] at hb'
    obtain ⟨b', hb', hf⟩ := hb'
    split at hf
    · rename_i hcond
      injection hf with hf
      obtain ⟨h1, h2⟩ := Prod.mk.injEq .. ▸ hf
      subst h1; subst h2
      exact ⟨ha', hb', hcond.1, hcond.2.1, hcond.2.2⟩
    · cases hf
  · rintro ⟨h1, h2, h3, h4, h5⟩
    refine ⟨a, h1, List.mem_filterMap.mpr ⟨b, h2, ?_⟩⟩
    rw [if_pos ⟨h3, h4, h5⟩]

theorem stateSessionNums_ne_nil (df : List CRow) (u s : Nat)
    (h : stateSessionNums df u s ≠ []) :
    (u, s) ∈ df.map (fun r => (r.user_id, r.state)) := by
  obtain ⟨n, hn⟩ := List.exists_mem_of_ne_nil _ h
  unfold stateSessionNums at hn
  rw [List.mem_map] at hn
  obtain ⟨r, hr, _⟩ := hn
  rw [List.mem_filter] at hr
  have := of_decide_eq_true hr.2
  exact List.mem_map.mpr ⟨r, hr.1, by rw [this.1, this.2]⟩

theorem everValidPairs_state_ne (df : List CRow)
    (ab : UserStateAgg × UserStateAgg) (h : ab ∈ everValidPairs df) :
    ab.1.state ≠ ab.2.state :=
  ((mem_everValidPairs df ab).mp h).2.2.2.2

theorem everCount_diag (df : List CRow) (i : Nat) : everCount df i i = 0 := by
  unfold everCount
  have hnil : (everValidPairs df).filter
      (fun ab => decide (ab.1.state = i ∧ ab.2.state = i)) = [] := by
    rw [List.filter_eq_nil_iff]
    intro ab hab
    have := everValidPairs_state_ne df ab hab
    simp only [decide_eq_true_eq, not_and]
    intro h1 h2
    exact this (h1.trans h2.symm)
  rw [hnil]
  rfl

/-- C5: semantics of the user-level "ever" transition matrix.  (1) A user
is counted in cell (from, to) iff from ≠ to and the earliest session
number at which they were observed in `from` is strictly less than the
latest session number at which they were observed in `to`.  (2)(3) The
diagonal is never populated: its count is always 0 (in both the count and
the normalized matrix).  (4) The heatmap renderer emits the user-level
diagonal as `None` (empty), not as a number.  (5) When normalizing, each
row divides by the number of distinct users ever observed in that row's
state (not by total users), ×100, rounded to one decimal. -/
theorem user_ever_matrix_semantics (df : List CRow) (u i j : Nat) :
    (u ∈ (((everValidPairs df).filter
        (fun ab => decide (ab.1.state = i ∧ ab.2.state = j))).map
          (fun ab => ab.1.user_id)).dedup ↔
      i ≠ j ∧ ∃ f l, first_session df u i = some f ∧
        last_session df u j = some l ∧ f < l) ∧
    calculate_user_ever_transition_matrix df true i i = 0 ∧
    calculate_user_ever_transition_matrix df false i i = 0 ∧
    (∀ v : ℚ, transitions_render_cell true i i v = none) ∧
    (0 < usersEverInState df i →
      calculate_user_ever_transition_matrix df true i j =
        round1 ((everCount df i j : ℚ) / (usersEverInState df i : ℚ) * 100)) := by
  refine ⟨?_, ?_, ?_, ?_, ?_⟩
  · rw [List.mem_dedup, List.mem_map]
    constructor
    · rintro ⟨ab, hab, habu⟩
      rw [List.mem_filter] at hab
      obtain ⟨hmem, hst⟩ := hab
      have hst := of_decide_eq_true hst
      obtain ⟨ha, hb, huser, hfl, hne⟩ := (mem_everValidPairs df ab).mp hmem
      rw [mem_user_state] at ha hb
      refine ⟨hst.1 ▸ hst.2 ▸ hne, ab.1.first_session, ab.2.last_session, ?_, ?_, hfl⟩
      · rw [← habu, ← hst.1]
        exact ha.2.1
      · rw [← habu, huser, ← hst.2]
        exact hb.2.2
    · rintro ⟨hne, f, l, hf, hl, hfl⟩
      have hnums_i : stateSessionNums df u i ≠ [] := by
        intro hnil
        rw [first_session, hnil] at hf
        cases hf
      have hnums_j : stateSessionNums df u j ≠ [] := by
        intro hnil
        rw [last_session, hnil] at hl
        cases hl
      obtain ⟨la, hla⟩ : ∃ la, last_session df u i = some la := by
        rcases hm : last_session df u i with _ | la
        · rw [last_session, List.max?_eq_none_iff] at hm
          exact absurd hm hnums_i
        · exact ⟨la, rfl⟩
      obtain ⟨fb, hfb⟩ : ∃ fb, first_session df u j = some fb := by
        rcases hm : first_session df u j with _ | fb
        · rw [first_session, List.min?_eq_none_iff] at hm
          exact absurd hm hnums_j
        · exact ⟨fb, rfl⟩
      have ha : (⟨u, i, f, la⟩ : UserStateAgg) ∈ user_state df :=
        (mem_user_state df _).mpr ⟨stateSessionNums_ne_nil df u i hnums_i, hf, hla⟩
      have hb : (⟨u, j, fb, l⟩ : UserStateAgg) ∈ user_state df :=
        (mem_user_state df _).mpr ⟨stateSessionNums_ne_nil df u j hnums_j, hfb, hl⟩
      refine ⟨(⟨u, i, f, la⟩, ⟨u, j, fb, l⟩), ?_, rfl⟩
      rw [List.mem_filter]
      refine ⟨(mem_everValidPairs df _).mpr ⟨ha, hb, rfl, hfl, ?_⟩, by simp⟩
      simpa using hne
  · simp [calculate_user_ever_transition_matrix, everCount_diag, round1_zero]
  · simp [calculate_user_ever_transition_matrix, everCount_diag]
  · intro v
    simp [transitions_render_cell]
  · intro hpos
    simp [calculate_user_ever_transition_matrix, hpos]

/-- Witness for C5: on the concrete `exampleTable`, two distinct users
are ever in state 1, and the normalized cell (1,2) is computed with that
per-row denominator. -/
theorem user_ever_matrix_semantics_witness :
    0 < usersEverInState exampleTable 1 ∧
    calculate_user_ever_transition_matrix exampleTable true 1 2 =
      round1 ((everCount exampleTable 1 2 : ℚ) /
        (usersEverInState exampleTable 1 : ℚ) * 100) :=
  ⟨by decide, (user_ever_matrix_semantics exampleTable 1 1 2).2.2.2.2 (by decide)⟩

/-! ## Sankey flow graph (`build_sankey_data`, `src/metrics.py`) -/

/-- The `state` field of a Sankey node: a funnel state number for the
per-session state nodes, or the string `'churned'` for churn nodes. -/
inductive NodeState
  | state (s : Nat)
  | churned
  deriving DecidableEq, Repr

/-- A node of the Sankey graph: its integer id (assigned as `len(nodes)`
at creation), its session ordinal, and its state tag. -/
structure SankeyNode where
  id : Nat
  session : Nat
  state : NodeState
  deriving DecidableEq, Repr

/-- A weighted edge of the Sankey graph. -/
structure SankeyLink where
  source : Nat
  target : Nat
  value : Nat
  deriving DecidableEq, Repr

/-- The `STATE_NAMES.items()` iteration order: states 1,2,3,4. -/
def sankeyStates : List Nat := [1, 2, 3, 4]

/-- The inner loop of node creation: append one node per state, id =
current length of the node list. -/
def addStateNodes (ns : List SankeyNode) (k : Nat) : List SankeyNode :=
  sankeyStates.foldl (fun acc s => acc ++ [⟨acc.length, k, .state s⟩]) ns

/-- Append the churn node for ordinal `k`, id = current length. -/
def addChurnNode (ns : List SankeyNode) (k : Nat) : List SankeyNode :=
  ns ++ [⟨ns.length, k, .churned⟩]

/-- The `nodes` list of `build_sankey_data`: state nodes for sessions
`1..max_sessions` (states in order), then churn nodes for sessions
`1..max_sessions-1`. -/
def sankeyNodes (maxSessions : Nat) : List SankeyNode :=
  (List.range' 1 (maxSessions - 1)).foldl addChurnNode
    ((List.range' 1 maxSessions).foldl addStateNodes [])

/-- The `node_map` dictionary lookup: the id of the (unique) node with
the given session and state tag (keys are unique, so the first match is
the dict entry). -/
def node_map (maxSessions k : Nat) (st : NodeState) : Nat :=
  match (sankeyNodes maxSessions).find?
      (fun n => decide (n.session = k ∧ n.state = st)) with
  | some n => n.id
  | none => 0

/-- Embeds `set(df[df['SESSION_NUMBER'] == next_session]['USER_ID'])`. -/
def sessionUsers (df : List CRow) (k : Nat) : Finset Nat :=
  ((df.filter (fun r => decide (r.session_number = (k : Int)))).map
    (fun r => r.user_id)).toFinset

/-- Embeds `users_by_session_state[(k, s)]`: the users with a session numbered
`k` in state `s`. -/
def users_by_session_state (df : List CRow) (k s : Nat) : Finset Nat :=
  ((df.filter (fun r => decide (r.session_number = (k : Int) ∧ r.state = s))).map
    (fun r => r.user_id)).toFinset

/-- The links produced for the consecutive pair (k, k+1): for each
from-state, the nonempty state-to-state intersections, then the churn
edge (users at `k` absent from the entire next session) when nonempty. -/
def sankeyLinksAt (df : List CRow) (maxSessions k : Nat) : List SankeyLink :=
  sankeyStates.flatMap (fun fs =>
    (sankeyStates.filterMap (fun ts =>
      if (users_by_session_state df k fs ∩ users_by_session_state df (k + 1) ts).Nonempty then
        some ⟨node_map maxSessions k (.state fs),
          node_map maxSessions (k + 1) (.state ts),
          (users_by_session_state df k fs ∩ users_by_session_state df (k + 1) ts).card⟩
      else none)) ++
    (if (users_by_session_state df k fs \ sessionUsers df (k + 1)).Nonempty then
      [⟨node_map maxSessions k (.state fs), node_map maxSessions k .churned,
        (users_by_session_state df k fs \ sessionUsers df (k + 1)).card⟩]
     else []))

/-- The full `links` list: blocks for session pairs (1,2) .. (max-1,max). -/
def sankeyLinks (df : List CRow) (maxSessions : Nat) : List SankeyLink :=
  (List.range' 1 (maxSessions - 1)).flatMap (sankeyLinksAt df maxSessions)

/-- Embeds `build_sankey_data`: the nodes list paired with the links list. -/
def build_sankey_data (df : List CRow) (maxSessions : Nat) :
    List SankeyNode × List SankeyLink :=
  (sankeyNodes maxSessions, sankeyLinks df maxSessions)

/-- The explicit node layout claimed by the spec: state nodes
ordinal-major and state-minor with id `4(k-1)+(s-1)`, then churn nodes in
ordinal order with id `4·max+(k-1)`. -/
def nodesClosedForm (m : Nat) : List SankeyNode :=
  (List.range' 1 m).flatMap (fun k =>
    [1, 2, 3, 4].map (fun s => ⟨4 * (k - 1) + (s - 1), k, .state s⟩)) ++
  (List.range' 1 (m - 1)).map (fun k => ⟨4 * m + (k - 1), k, .churned⟩)

theorem addStateNodes_eq (acc : List SankeyNode) (k : Nat) :
    addStateNodes acc k = acc ++
      [⟨acc.length, k, .state 1⟩, ⟨acc.length + 1, k, .state 2⟩,
       ⟨acc.length + 2, k, .state 3⟩, ⟨acc.length + 3, k, .state 4⟩] := by
  simp [addStateNodes, sankeyStates]

theorem stateClosed_length (m : Nat) :
    ((List.range' 1 m).flatMap (fun k =>
      [1, 2, 3, 4].map (fun s =>
        (⟨4 * (k - 1) + (s - 1), k, .state s⟩ : SankeyNode)))).length = 4 * m := by
  induction m with
  | zero => simp
  | succ n ih =>
    rw [List.range'_1_concat, List.flatMap_append, List.length_append, ih]
    simp only [List.flatMap_cons, List.flatMap_nil, List.append_nil, List.length_map,
      List.length_cons, List.length_nil]
    omega

theorem stateFold_closed (m : Nat) :
    (List.range' 1 m).foldl addStateNodes [] =
      (List.range' 1 m).flatMap (fun k =>
        [1, 2, 3, 4].map (fun s => ⟨4 * (k - 1) + (s - 1), k, .state s⟩)) := by
  induction m with
  | zero => simp
  | succ n ih =>
    rw [List.range'_1_concat, List.foldl_append, List.flatMap_append]
    rw [List.foldl_cons, List.foldl_nil, addStateNodes_eq, ih, stateClosed_length]
    congr 1
    simp only [List.flatMap_cons, List.flatMap_nil, List.append_nil, List.map_cons,
      List.map_nil, List.cons.injEq, SankeyNode.mk.injEq, and_true]
    omega

theorem churnFold_closed (n : Nat) (acc : List SankeyNode) :
    (List.range' 1 n).foldl addChurnNode acc =
      acc ++ (List.range' 1 n).map (fun k => ⟨acc.length + (k - 1), k, .churned⟩) := by
  induction n with
  | zero => simp
  | succ n ih =>
    rw [List.range'_1_concat, List.foldl_append, List.map_append, ih]
    simp only [List.foldl_cons, List.foldl_nil, addChurnNode, List.length_append,
      List.length_map, List.length_range', List.map_cons, List.map_nil,
      List.append_assoc]
    have : 1 + n - 1 = n := by omega
    rw [this]

theorem sankeyNodes_closed (m : Nat) : sankeyNodes m = nodesClosedForm m := by
  unfold sankeyNodes nodesClosedForm
  rw [churnFold_closed, stateFold_closed, stateClosed_length]

theorem find?_eq_some_of_unique {α : Type} (p : α → Bool) (l : List α) (x : α)
    (hx : x ∈ l) (hpx : p x = true) (huniq : ∀ y ∈ l, p y = true → y = x) :
    l.find? p = some x := by
  induction l with
  | nil => cases hx
  | cons a t ih =>
    by_cases hpa : p a = true
    · have ha : a = x := huniq a (List.mem_cons_self ..) hpa
      rw [List.find?_cons_of_pos _ hpa, ha]
    · rw [List.find?_cons_of_neg _ hpa]
      rcases List.mem_cons.mp hx with rfl | hx'
      · exact absurd hpx hpa
      · exact ih hx' (fun y hy hpy => huniq y (List.mem_cons_of_mem _ hy) hpy)

theorem node_map_state (m k s : Nat) (hk1 : 1 ≤ k) (hk2 : k ≤ m)
    (hs1 : 1 ≤ s) (hs2 : s ≤ 4) :
    node_map m k (.state s) = 4 * (k - 1) + (s - 1) := by
  unfold node_map
  rw [sankeyNodes_closed]
  rw [find?_eq_some_of_unique _ _ (⟨4 * (k - 1) + (s - 1), k, .state s⟩ : SankeyNode)
    ?_ (by simp) ?_]
  · rw [nodesClosedForm, List.mem_append]
    left
    rw [List.mem_flatMap]
    refine ⟨k, List.mem_range'_1.mpr ⟨hk1, by omega⟩, ?_⟩
    rw [List.mem_map]
    exact ⟨s, by interval_cases s <;> decide, rfl⟩
  · intro y hy hpy
    rw [nodesClosedForm, List.mem_append] at hy
    have hpy := of_decide_eq_true hpy
    rcases hy with hy | hy
    · rw [List.mem_flatMap] at hy
      obtain ⟨k', _, hy'⟩ := hy
      rw [List.mem_map] at hy'
      obtain ⟨s', _, rfl⟩ := hy'
      obtain ⟨h1, h2⟩ := hpy
      simp only at h1
      subst h1
      have : s' = s := by
        cases h2
        rfl
      subst this
      rfl
    · rw [List.mem_map] at hy
      obtain ⟨k', _, rfl⟩ := hy
      exact absurd hpy.2 (by simp)

theorem node_map_churn (m k : Nat) (hk1 : 1 ≤ k) (hk2 : k ≤ m - 1) :
    node_map m k .churned = 4 * m + (k - 1) := by
  unfold node_map
  rw [sankeyNodes_closed]
  rw [find?_eq_some_of_unique _ _ (⟨4 * m + (k - 1), k, .churned⟩ : SankeyNode)
    ?_ (by simp) ?_]
  · rw [nodesClosedForm, List.mem_append]
    right
    rw [List.mem_map]
    exact ⟨k, List.mem_range'_1.mpr ⟨hk1, by omega⟩, rfl⟩
  · intro y hy hpy
    rw [nodesClosedForm, List.mem_append] at hy
    have hpy := of_decide_eq_true hpy
    rcases hy with hy | hy
    · rw [List.mem_flatMap] at hy
      obtain ⟨k', _, hy'⟩ := hy
      rw [List.mem_map] at hy'
      obtain ⟨s', _, rfl⟩ := hy'
      exact absurd hpy.2 (by simp)
    · rw [List.mem_map] at hy
      obtain ⟨k', _, rfl⟩ := hy
      obtain ⟨h1, _⟩ := hpy
      simp only at h1
      subst h1
      rfl

theorem stateClosed_map_id (m : Nat) :
    (((List.range' 1 m).flatMap (fun k =>
      [1, 2, 3, 4].map (fun s =>
        (⟨4 * (k - 1) + (s - 1), k, .state s⟩ : SankeyNode)))).map (fun n => n.id)) =
      List.range' 0 (4 * m) := by
  induction m with
  | zero => simp
  | succ n ih =>
    rw [List.range'_1_concat, List.flatMap_append, List.map_append, ih]
    have hblock : (([1 + n].flatMap (fun k =>
        [1, 2, 3, 4].map (fun s =>
          (⟨4 * (k - 1) + (s - 1), k, .state s⟩ : SankeyNode)))).map (fun n => n.id)) =
        List.range' (4 * n) 4 := by
      simp only [List.flatMap_cons, List.flatMap_nil, List.append_nil, List.map_cons,
        List.map_nil]
      have h1 : 4 * (1 + n - 1) + (1 - 1) = 4 * n := by omega
      have h2 : 4 * (1 + n - 1) + (2 - 1) = 4 * n + 1 := by omega
      have h3 : 4 * (1 + n - 1) + (3 - 1) = 4 * n + 2 := by omega
      have h4 : 4 * (1 + n - 1) + (4 - 1) = 4 * n + 3 := by omega
      rw [h1, h2, h3, h4]
      rfl
    rw [hblock]
    have := List.range'_append_1 0 (4 * n) 4
    rw [Nat.zero_add] at this
    rw [this]
    congr 1
    omega

theorem churnClosed_map_id (c n : Nat) :
    (((List.range' 1 n).map (fun k =>
      (⟨c + (k - 1), k, .churned⟩ : SankeyNode))).map (fun n => n.id)) =
      List.range' c n := by
  induction n with
  | zero => simp
  | succ n ih =>
    rw [List.range'_1_concat, List.map_append, List.map_append, ih,
      List.range'_1_concat]
    simp only [List.map_cons, List.map_nil]
    have : c + (1 + n - 1) = c + n := by omega
    rw [this]

/-- C9: flow-graph node ids are stable and deterministic.  The nodes
list of `build_sankey_data` does not depend on the input table at all
(hence two runs on identical input produce identical assignments) and
equals the explicit layout `nodesClosedForm`: state nodes ordinal-major
and state-minor with id `4(k-1)+(s-1)`, then one churn node per ordinal
`k ≤ max-1` with id `4·max+(k-1)` — so ids are assigned in creation order
(`map id = range`), and within every ordinal the churn node's id comes
after all of that ordinal's state-node ids. -/
theorem sankey_node_ids_deterministic (df : List CRow) (m : Nat) :
    (build_sankey_data df m).1 = nodesClosedForm m ∧
    ((build_sankey_data df m).1.map (fun n => n.id)) =
      List.range ((build_sankey_data df m).1.length) ∧
    (∀ k s, 1 ≤ k → k ≤ m - 1 → 1 ≤ s → s ≤ 4 →
      node_map m k (.state s) < node_map m k .churned) := by
  have hnodes : (build_sankey_data df m).1 = nodesClosedForm m := sankeyNodes_closed m
  refine ⟨hnodes, ?_, ?_⟩
  · rw [hnodes]
    have hlen : (nodesClosedForm m).length = 4 * m + (m - 1) := by
      rw [nodesClosedForm, List.length_append, stateClosed_length, List.length_map,
        List.length_range']
    rw [hlen, nodesClosedForm, List.map_append, stateClosed_map_id, churnClosed_map_id,
      List.range_eq_range']
    have := List.range'_append_1 0 (4 * m) (m - 1)
    rw [Nat.zero_add] at this
    rw [this]
    congr 1
    omega
  · intro k s hk1 hk2 hs1 hs2
    rw [node_map_state m k s hk1 (by omega) hs1 hs2, node_map_churn m k hk1 hk2]
    omega

/-- Witness for C9: at `max_sessions = 3` on the empty table, the nodes
equal the closed-form layout and ordinal 1's churn node id (12) exceeds
its state-node ids (0..3). -/
theorem sankey_node_ids_deterministic_witness :
    (build_sankey_data [] 3).1 = nodesClosedForm 3 ∧
    node_map 3 1 (.state 2) < node_map 3 1 .churned :=
  ⟨(sankey_node_ids_deterministic [] 3).1,
   (sankey_node_ids_deterministic [] 3).2.2 1 2 (by decide) (by decide)
     (by decide) (by decide)⟩

theorem mem_users_by_session_state (df : List CRow) (k s u : Nat) :
    u ∈ users_by_session_state df k s ↔
      ∃ r ∈ df, r.user_id = u ∧ r.session_number = (k : Int) ∧ r.state = s := by
  unfold users_by_session_state
  rw [List.mem_toFinset, List.mem_map]
  constructor
  · rintro ⟨r, hr, rfl⟩
    rw [List.mem_filter] at hr
    have := of_decide_eq_true hr.2
    exact ⟨r, hr.1, rfl, this.1, this.2⟩
  · rintro ⟨r, hr, rfl, hn, hs⟩
    exact ⟨r, List.mem_filter.mpr ⟨hr, by simp [hn, hs]⟩, rfl⟩

theorem mem_sessionUsers (df : List CRow) (k u : Nat) :
    u ∈ sessionUsers df k ↔
      ∃ r ∈ df, r.user_id = u ∧ r.session_number = (k : Int) := by
  unfold sessionUsers
  rw [List.mem_toFinset, List.mem_map]
  constructor
  · rintro ⟨r, hr, rfl⟩
    rw [List.mem_filter] at hr
    exact ⟨r, hr.1, rfl, of_decide_eq_true hr.2⟩
  · rintro ⟨r, hr, rfl, hn⟩
    exact ⟨r, List.mem_filter.mpr ⟨hr, by simp [hn]⟩, rfl⟩

theorem mem_of_length_le_one {α : Type} {l : List α} (h : l.length ≤ 1)
    {a b : α} (ha : a ∈ l) (hb : b ∈ l) : a = b := by
  match l, h with
  | [], _ => cases ha
  | [x], _ =>
    rw [List.mem_singleton] at ha hb
    rw [ha, hb]

/-- Per-ordinal, per-state user sets are pairwise disjoint when no user
has two sessions with the same session number. -/
theorem users_by_session_state_disjoint (df : List CRow) (k : Nat)
    (huniq : ∀ (u : Nat) (n : Int),
      (df.filter (fun r => decide (r.user_id = u ∧ r.session_number = n))).length ≤ 1)
    (s t : Nat) (hst : s ≠ t) :
    Disjoint (users_by_session_state df k s) (users_by_session_state df k t) := by
  rw [Finset.disjoint_left]
  intro u hus hut
  rw [mem_users_by_session_state] at hus hut
  obtain ⟨r1, hr1, hu1, hn1, hs1⟩ := hus
  obtain ⟨r2, hr2, hu2, hn2, hs2⟩ := hut
  have h1 : r1 ∈ df.filter (fun r => decide (r.user_id = u ∧ r.session_number = (k : Int))) :=
    List.mem_filter.mpr ⟨hr1, by simp [hu1, hn1]⟩
  have h2 : r2 ∈ df.filter (fun r => decide (r.user_id = u ∧ r.session_number = (k : Int))) :=
    List.mem_filter.mpr ⟨hr2, by simp [hu2, hn2]⟩
  have := mem_of_length_le_one (huniq u (k : Int)) h1 h2
  rw [this] at hs1
  exact hst (hs1.symm.trans hs2)

/-- With every state in 1..4, the per-state user sets cover exactly the
session's users. -/
theorem sessionUsers_eq_union (df : List CRow) (k : Nat)
    (hcls : ∀ r ∈ df, 1 ≤ r.state ∧ r.state ≤ 4) :
    sessionUsers df k =
      users_by_session_state df k 1 ∪ users_by_session_state df k 2 ∪
      users_by_session_state df k 3 ∪ users_by_session_state df k 4 := by
  ext u
  simp only [Finset.mem_union, mem_sessionUsers, mem_users_by_session_state]
  constructor
  · rintro ⟨r, hr, rfl, hn⟩
    have hb := hcls r hr
    have : r.state = 1 ∨ r.state = 2 ∨ r.state = 3 ∨ r.state = 4 := by omega
    rcases this with h | h | h | h
    · exact Or.inl (Or.inl (Or.inl ⟨r, hr, rfl, hn, h⟩))
    · exact Or.inl (Or.inl (Or.inr ⟨r, hr, rfl, hn, h⟩))
    · exact Or.inl (Or.inr ⟨r, hr, rfl, hn, h⟩)
    · exact Or.inr ⟨r, hr, rfl, hn, h⟩
  · rintro (((⟨r, hr, rfl, hn, _⟩ | ⟨r, hr, rfl, hn, _⟩) | ⟨r, hr, rfl, hn, _⟩) |
      ⟨r, hr, rfl, hn, _⟩) <;> exact ⟨r, hr, rfl, hn⟩

/-- Outgoing-mass split for one from-state set `A` against a partition
`B1..B4` of the next session's users `N`. -/
theorem card_from_split (A B1 B2 B3 B4 N : Finset Nat)
    (hN : N = B1 ∪ B2 ∪ B3 ∪ B4)
    (h12 : Disjoint B1 B2) (h13 : Disjoint B1 B3) (h14 : Disjoint B1 B4)
    (h23 : Disjoint B2 B3) (h24 : Disjoint B2 B4) (h34 : Disjoint B3 B4) :
    (A ∩ B1).card + (A ∩ B2).card + (A ∩ B3).card + (A ∩ B4).card +
      (A \ N).card = A.card := by
  have hsplit := Finset.card_inter_add_card_sdiff A N
  have hAN : A ∩ N = A ∩ B1 ∪ A ∩ B2 ∪ A ∩ B3 ∪ A ∩ B4 := by
    rw [hN, Finset.inter_union_distrib_left, Finset.inter_union_distrib_left,
      Finset.inter_union_distrib_left]
  have d12 : Disjoint (A ∩ B1) (A ∩ B2) :=
    h12.mono Finset.inter_subset_right Finset.inter_subset_right
  have d13 : Disjoint (A ∩ B1) (A ∩ B3) :=
    h13.mono Finset.inter_subset_right Finset.inter_subset_right
  have d14 : Disjoint (A ∩ B1) (A ∩ B4) :=
    h14.mono Finset.inter_subset_right Finset.inter_subset_right
  have d23 : Disjoint (A ∩ B2) (A ∩ B3) :=
    h23.mono Finset.inter_subset_right Finset.inter_subset_right
  have d24 : Disjoint (A ∩ B2) (A ∩ B4) :=
    h24.mono Finset.inter_subset_right Finset.inter_subset_right
  have d34 : Disjoint (A ∩ B3) (A ∩ B4) :=
    h34.mono Finset.inter_subset_right Finset.inter_subset_right
  have hc : (A ∩ N).card =
      (A ∩ B1).card + (A ∩ B2).card + (A ∩ B3).card + (A ∩ B4).card := by
    rw [hAN, Finset.card_union_of_disjoint (by
        rw [Finset.disjoint_union_left]
        exact ⟨by rw [Finset.disjoint_union_left]; exact ⟨d14, d24⟩, d34⟩),
      Finset.card_union_of_disjoint (by
        rw [Finset.disjoint_union_left]
        exact ⟨d13, d23⟩),
      Finset.card_union_of_disjoint d12]
  omega

theorem card_union_four (B1 B2 B3 B4 : Finset Nat)
    (h12 : Disjoint B1 B2) (h13 : Disjoint B1 B3) (h14 : Disjoint B1 B4)
    (h23 : Disjoint B2 B3) (h24 : Disjoint B2 B4) (h34 : Disjoint B3 B4) :
    (B1 ∪ B2 ∪ B3 ∪ B4).card = B1.card + B2.card + B3.card + B4.card := by
  rw [Finset.card_union_of_disjoint (by
      rw [Finset.disjoint_union_left]
      exact ⟨by rw [Finset.disjoint_union_left]; exact ⟨h14, h24⟩, h34⟩),
    Finset.card_union_of_disjoint (by
      rw [Finset.disjoint_union_left]
      exact ⟨h13, h23⟩),
    Finset.card_union_of_disjoint h12]

theorem sum_map_flatMap {α β : Type} (l : List α) (f : α → List β) (g : β → Nat) :
    ((l.flatMap f).map g).sum = (l.map (fun a => ((f a).map g).sum)).sum := by
  induction l with
  | nil => rfl
  | cons a t ih =>
    rw [List.flatMap_cons, List.map_append, List.sum_append, List.map_cons,
      List.sum_cons, ih]

theorem sum_value_filterMap_if {α : Type} (l : List α) (S : α → Finset Nat)
    (a b : α → Nat) :
    ((l.filterMap (fun t => if (S t).Nonempty then
        some (⟨a t, b t, (S t).card⟩ : SankeyLink) else none)).map
      (fun x => x.value)).sum = (l.map (fun t => (S t).card)).sum := by
  induction l with
  | nil => rfl
  | cons t l ih =>
    by_cases h : (S t).Nonempty
    · simp only [List.filterMap_cons, if_pos h, List.map_cons, List.sum_cons, ih]
    · have hc : (S t).card = 0 := by
        rw [Finset.not_nonempty_iff_eq_empty.mp h, Finset.card_empty]
      simp only [List.filterMap_cons, if_neg h, List.map_cons, List.sum_cons, ih, hc,
        Nat.zero_add]

theorem sum_value_if_singleton (c : Prop) [Decidable c] (a b v : Nat)
    (hv : ¬c → v = 0) :
    ((if c then [(⟨a, b, v⟩ : SankeyLink)] else []).map (fun x => x.value)).sum = v := by
  split
  · rfl
  · rename_i h
    rw [hv h]
    rfl

theorem sankeyLinksAt_value_sum (df : List CRow) (maxSessions k : Nat)
    (hcls : ∀ r ∈ df, 1 ≤ r.state ∧ r.state ≤ 4)
    (huniq : ∀ (u : Nat) (n : Int),
      (df.filter (fun r => decide (r.user_id = u ∧ r.session_number = n))).length ≤ 1) :
    ((sankeyLinksAt df maxSessions k).map (fun l => l.value)).sum =
      (sessionUsers df k).card := by
  have hdisj : ∀ (k' : Nat) (s t : Nat), s ≠ t →
      Disjoint (users_by_session_state df k' s) (users_by_session_state df k' t) :=
    fun k' s t hst => users_by_session_state_disjoint df k' huniq s t hst
  have hone : ∀ fs,
      (((([1, 2, 3, 4] : List Nat).filterMap (fun ts =>
          if (users_by_session_state df k fs ∩ users_by_session_state df (k + 1) ts).Nonempty then
            some (⟨node_map maxSessions k (.state fs),
              node_map maxSessions (k + 1) (.state ts),
              (users_by_session_state df k fs ∩ users_by_session_state df (k + 1) ts).card⟩ : SankeyLink)
          else none)) ++
        (if (users_by_session_state df k fs \ sessionUsers df (k + 1)).Nonempty then
          [(⟨node_map maxSessions k (.state fs), node_map maxSessions k .churned,
            (users_by_session_state df k fs \ sessionUsers df (k + 1)).card⟩ : SankeyLink)]
         else [])).map (fun l => l.value)).sum =
      (users_by_session_state df k fs).card := by
    intro fs
    rw [List.map_append, List.sum_append,
      sum_value_filterMap_if ([1, 2, 3, 4] : List Nat)
        (fun ts => users_by_session_state df k fs ∩ users_by_session_state df (k + 1) ts),
      sum_value_if_singleton _ _ _ _
        (fun h => by rw [Finset.not_nonempty_iff_eq_empty.mp h, Finset.card_empty])]
    simp only [List.map_cons, List.map_nil, List.sum_cons, List.sum_nil]
    have := card_from_split (users_by_session_state df k fs)
      (users_by_session_state df (k + 1) 1) (users_by_session_state df (k + 1) 2)
      (users_by_session_state df (k + 1) 3) (users_by_session_state df (k + 1) 4)
      (sessionUsers df (k + 1)) (sessionUsers_eq_union df (k + 1) hcls)
      (hdisj (k + 1) 1 2 (by norm_num)) (hdisj (k + 1) 1 3 (by norm_num))
      (hdisj (k + 1) 1 4 (by norm_num)) (hdisj (k + 1) 2 3 (by norm_num))
      (hdisj (k + 1) 2 4 (by norm_num)) (hdisj (k + 1) 3 4 (by norm_num))
    omega
  unfold sankeyLinksAt
  rw [sum_map_flatMap]
  simp only [sankeyStates, List.map_cons, List.map_nil, List.sum_cons, List.sum_nil]
  rw [hone 1, hone 2, hone 3, hone 4]
  have hcover := sessionUsers_eq_union df k hcls
  have hcard := card_union_four
    (users_by_session_state df k 1) (users_by_session_state df k 2)
    (users_by_session_state df k 3) (users_by_session_state df k 4)
    (hdisj k 1 2 (by norm_num)) (hdisj k 1 3 (by norm_num))
    (hdisj k 1 4 (by norm_num)) (hdisj k 2 3 (by norm_num))
    (hdisj k 2 4 (by norm_num)) (hdisj k 3 4 (by norm_num))
  rw [hcover, hcard]
  omega

theorem sum_map_eq_single {α : Type} [DecidableEq α] (l : List α) (h : α → Nat)
    (k : α) (hk : k ∈ l) (hnd : l.Nodup) (hz : ∀ x ∈ l, x ≠ k → h x = 0) :
    (l.map h).sum = h k := by
  induction l with
  | nil => cases hk
  | cons a t ih =>
    rw [List.map_cons, List.sum_cons]
    have hnd' := List.nodup_cons.mp hnd
    rcases List.mem_cons.mp hk with rfl | hk'
    · have hz' : (t.map h).sum = 0 := by
        apply List.sum_eq_zero
        intro x hx
        rw [List.mem_map] at hx
        obtain ⟨y, hy, rfl⟩ := hx
        by_cases hyk : y = k
        · exact absurd (hyk ▸ hy) hnd'.1
        · exact hz y (List.mem_cons_of_mem _ hy) hyk
      rw [hz']
      omega
    · have hak : a ≠ k := by
        rintro rfl
        exact hnd'.1 hk'
      rw [hz a (List.mem_cons_self ..) hak,
        ih hk' hnd'.2 (fun x hx hxk => hz x (List.mem_cons_of_mem _ hx) hxk)]
      omega

theorem sankeyLinksAt_source_range (df : List CRow) (maxSessions k' : Nat)
    (hk'1 : 1 ≤ k') (hk'2 : k' ≤ maxSessions - 1) :
    ∀ l ∈ sankeyLinksAt df maxSessions k',
      4 * (k' - 1) ≤ l.source ∧ l.source < 4 * k' := by
  intro l hl
  unfold sankeyLinksAt at hl
  rw [List.mem_flatMap] at hl
  obtain ⟨fs, hfs, hl⟩ := hl
  have hfsb : 1 ≤ fs ∧ fs ≤ 4 := by
    have : fs = 1 ∨ fs = 2 ∨ fs = 3 ∨ fs = 4 := by
      simpa [sankeyStates] using hfs
    omega
  rw [List.mem_append] at hl
  have hsrc : l.source = node_map maxSessions k' (.state fs) := by
    rcases hl with hl | hl
    · rw [List.mem_filterMap] at hl
      obtain ⟨ts, _, hts⟩ := hl
      split at hts
      · injection hts with hts
        rw [← hts]
      · cases hts
    · split at hl
      · rw [List.mem_singleton] at hl
        rw [hl]
      · cases hl
  rw [hsrc, node_map_state maxSessions k' fs hk'1 (by omega) hfsb.1 hfsb.2]
  omega

/-- C6: flow conservation.  For a classified table (states in 1..4) in
which each user has at most one session per session number, and every
ordinal `1 ≤ k < max_sessions`, the total weight of the links leaving
ordinal `k`'s state nodes (state-to-state links plus the churn link)
equals the number of distinct users active at ordinal `k`. -/
theorem sankey_flow_conservation (df : List CRow) (maxSessions k : Nat)
    (hk1 : 1 ≤ k) (hk2 : k < maxSessions)
    (hcls : ∀ r ∈ df, 1 ≤ r.state ∧ r.state ≤ 4)
    (huniq : ∀ (u : Nat) (n : Int),
      (df.filter (fun r => decide (r.user_id = u ∧ r.session_number = n))).length ≤ 1) :
    (((sankeyLinks df maxSessions).filter
        (fun l => decide (4 * (k - 1) ≤ l.source ∧ l.source < 4 * k))).map
      (fun l => l.value)).sum = (sessionUsers df k).card := by
  rw [sankeyLinks, List.filter_flatMap, sum_map_flatMap]
  have hkmem : k ∈ List.range' 1 (maxSessions - 1) :=
    List.mem_range'_1.mpr ⟨hk1, by omega⟩
  rw [sum_map_eq_single _ _ k hkmem (List.nodup_range' ..) ?_]
  · have hself : (sankeyLinksAt df maxSessions k).filter
        (fun l => decide (4 * (k - 1) ≤ l.source ∧ l.source < 4 * k)) =
        sankeyLinksAt df maxSessions k := by
      rw [List.filter_eq_self]
      intro l hl
      have := sankeyLinksAt_source_range df maxSessions k hk1 (by omega) l hl
      simp only [decide_eq_true_eq]
      exact this
    rw [hself]
    exact sankeyLinksAt_value_sum df maxSessions k hcls huniq
  · intro k'' hk''mem hkne
    have hb := List.mem_range'_1.mp hk''mem
    have hnil : (sankeyLinksAt df maxSessions k'').filter
        (fun l => decide (4 * (k - 1) ≤ l.source ∧ l.source < 4 * k)) = [] := by
      rw [List.filter_eq_nil_iff]
      intro l hl
      have := sankeyLinksAt_source_range df maxSessions k'' hb.1 (by omega) l hl
      simp only [decide_eq_true_eq, not_and]
      intro h1
      omega
    rw [hnil]
    rfl

/-- If no two rows share the (user, session-number) key, then every
per-user-per-number slice has at most one row. -/
theorem uniq_of_nodup_keys (df : List CRow)
    (h : (df.map (fun r => (r.user_id, r.session_number))).Nodup) :
    ∀ (u : Nat) (n : Int),
      (df.filter (fun r => decide (r.user_id = u ∧ r.session_number = n))).length ≤ 1 := by
  induction df with
  | nil => intro u n; simp
  | cons r t ih =>
    intro u n
    rw [List.map_cons, List.nodup_cons] at h
    rw [List.filter_cons]
    split
    · rename_i hp
      have hp := of_decide_eq_true hp
      have hnil : t.filter (fun q => decide (q.user_id = u ∧ q.session_number = n)) = [] := by
        rw [List.filter_eq_nil_iff]
        intro q hq hdq
        have hdq := of_decide_eq_true hdq
        apply h.1
        rw [List.mem_map]
        exact ⟨q, hq, by rw [hdq.1, hdq.2, hp.1, hp.2]⟩
      rw [hnil]
      simp
    · exact ih h.2 u n

/-- Witness for C6: on `exampleTable` with `max_sessions = 2` and
ordinal `k = 1`, the outgoing link weights sum to the 2 distinct users
active at session 1. -/
theorem sankey_flow_conservation_witness :
    (1 ≤ 1 ∧ 1 < 2 ∧ (∀ r ∈ exampleTable, 1 ≤ r.state ∧ r.state ≤ 4)) ∧
    (((sankeyLinks exampleTable 2).filter
        (fun l => decide (4 * (1 - 1) ≤ l.source ∧ l.source < 4 * 1))).map
      (fun l => l.value)).sum = (sessionUsers exampleTable 1).card :=
  ⟨⟨le_refl 1, by omega, by decide⟩,
   sankey_flow_conservation exampleTable 2 1 (le_refl 1) (by omega) (by decide)
     (uniq_of_nodup_keys exampleTable (by decide))⟩

/-! ## State distribution, channel metrics, time-to-state
(`calculate_state_distribution`, `calculate_channel_metrics`,
`calculate_time_to_state`, `src/metrics.py`) -/

/-- pandas `.round(2)`: round to two decimal places, ties to even. -/
def round2 (x : ℚ) : ℚ := (roundTiesEven (x * 100) : ℚ) / 100

/-- Embeds `calculate_state_distribution` without grouping: one row per observed
state (ascending), with its session count and percentage of all rows
(rounded to one decimal). -/
def calculate_state_distribution (df : List CRow) : List (Nat × Nat × ℚ) :=
  (stableSort (fun a b => decide (a ≤ b)) ((df.map (fun r => r.state)).dedup)).map
    (fun s => (s, (df.map (fun r => r.state)).count s,
      round1 (((df.map (fun r => r.state)).count s : ℚ) / (df.length : ℚ) * 100)))

/-- One output row of `calculate_channel_metrics`. -/
structure ChannelRow where
  channel : String
  total_users : Nat
  purchased_users : Nat
  purchase_rate : ℚ
  purchase_ready_users : Nat
  purchase_ready_rate : ℚ
  problem_aware_rate : ℚ
  avg_sessions : ℚ
  session1_purchase_rate : ℚ
  return_rate : ℚ
  deriving DecidableEq, Repr

/-- The left merge with the `SESSION_NUMBER == 1` slice: a user's
first-touch channel is the channel of their session-1 row (`none` when
they have no session-1 row or its channel is null; such rows fall out of
the grouping, since pandas `groupby` drops NaN keys). -/
def first_touch_channel (df : List CRow) (u : Nat) : Option String :=
  (df.find? (fun r => decide (r.user_id = u ∧ r.session_number = 1))).bind
    (fun r => r.channel)

/-- The rows of the group keyed by first-touch channel `c`. -/
def channelGroup (df : List CRow) (c : String) : List CRow :=
  df.filter (fun r => decide (first_touch_channel df r.user_id = some c))

/-- The per-group metric record of `calculate_channel_metrics`. -/
def channelMetricsRow (df : List CRow) (c : String) : ChannelRow :=
  let g := channelGroup df c
  let users := (g.map (fun r => r.user_id)).dedup.length
  let purchased := ((g.filter (fun r => decide (r.state = 4))).map
    (fun r => r.user_id)).dedup.length
  let pready := ((g.filter (fun r => decide (r.state = 3))).map
    (fun r => r.user_id)).dedup.length
  let paware := ((g.filter (fun r => decide (2 ≤ r.state))).map
    (fun r => r.user_id)).dedup.length
  let s1p := ((g.filter (fun r => decide (r.session_number = 1))).filter
    (fun r => decide (r.state = 4))).length
  let ret := ((g.filter (fun r => decide (r.session_number > 1))).map
    (fun r => r.user_id)).dedup.length
  ⟨c, users, purchased, round2 ((purchased : ℚ) / (users : ℚ) * 100),
   pready, round2 ((pready : ℚ) / (users : ℚ) * 100),
   round2 ((paware : ℚ) / (users : ℚ) * 100),
   round2 ((g.length : ℚ) / (users : ℚ)),
   round2 ((s1p : ℚ) / (users : ℚ) * 100),
   round2 ((ret : ℚ) / (users : ℚ) * 100)⟩

/-- Embeds `calculate_channel_metrics`: group by first-touch channel (groupby
iterates keys ascending, dropping null keys), compute the per-group
record, and sort the result descending by `total_users`.  With zero
groups (in particular on an empty table) `calc_metrics` never runs, so
the `groupby.apply` result has no `total_users` column and the following
`reset_index()`/`sort_values('total_users')` raises — fallible, hence
`Except`: the zero-group case is the error path. -/
def calculate_channel_metrics (df : List CRow) : Except String (List ChannelRow) :=
  let channels := stableSort (fun a b => decide (a ≤ b))
    ((df.filterMap (fun r => first_touch_channel df r.user_id)).dedup)
  if channels = [] then
    .error "zero-group apply result has no total_users column"
  else
    .ok (stableSort (fun a b => decide (b.total_users ≤ a.total_users))
      (channels.map (channelMetricsRow df)))

/-- One output row of `calculate_time_to_state`. -/
structure TTSRow where
  user_id : Nat
  sessions_to_state : Int
  first_reached_at : Int
  first_session_at : Int
  days_to_state : ℚ
  deriving DecidableEq, Repr

/-- Embeds `calculate_time_to_state`: for each user (groupby iterates users
ascending) with any session of state ≥ target, aggregate the minimum
session number and earliest start among those sessions, then inner-merge
with the user's `SESSION_NUMBER == 1` rows; `days_to_state` is the
calendar distance from the session-1 row's start (seconds / 86400). -/
def calculate_time_to_state (df : List CRow) (target : Nat) : List TTSRow :=
  (stableSort (fun a b => decide (a ≤ b)) ((df.map (fun r => r.user_id)).dedup)).flatMap
    (fun u =>
      match ((df.filter (fun r => decide (r.user_id = u ∧ target ≤ r.state))).map
          (fun r => r.session_number)).min?,
        ((df.filter (fun r => decide (r.user_id = u ∧ target ≤ r.state))).map
          (fun r => r.session_start)).min? with
      | some sn, some st =>
          (df.filter (fun r => decide (r.user_id = u ∧ r.session_number = 1))).map
            (fun fr => ⟨u, sn, st, fr.session_start,
              ((st - fr.session_start : Int) : ℚ) / 86400⟩)
      | _, _ => [])

/-- C10: time-to-state semantics.  A user appears in the result iff they
have a session with state ≥ target AND they have a `SESSION_NUMBER = 1`
row (the inner merge silently drops reached users without one); and each
kept row's `days_to_state` is measured from the session-1 row's start
timestamp (not the minimum timestamp over the user's sessions), while
`sessions_to_state`/`first_reached_at` are the minimum session number and
earliest start among the user's qualifying sessions. -/
theorem time_to_state_semantics (df : List CRow) (target : Nat) :
    (∀ u : Nat,
      (∃ row ∈ calculate_time_to_state df target, row.user_id = u) ↔
        ((∃ r ∈ df, r.user_id = u ∧ target ≤ r.state) ∧
         (∃ r ∈ df, r.user_id = u ∧ r.session_number = 1))) ∧
    (∀ row ∈ calculate_time_to_state df target,
      ∃ fr ∈ df, fr.user_id = row.user_id ∧ fr.session_number = 1 ∧
        row.first_session_at = fr.session_start ∧
        row.days_to_state =
          ((row.first_reached_at - fr.session_start : Int) : ℚ) / 86400 ∧
        ((df.filter (fun r => decide (r.user_id = row.user_id ∧ target ≤ r.state))).map
          (fun r => r.session_number)).min? = some row.sessions_to_state ∧
        ((df.filter (fun r => decide (r.user_id = row.user_id ∧ target ≤ r.state))).map
          (fun r => r.session_start)).min? = some row.first_reached_at) := by
  constructor
  · intro u
    constructor
    · rintro ⟨row, hrow, hu⟩
      rw [calculate_time_to_state, List.mem_flatMap] at hrow
      obtain ⟨u', _, hin⟩ := hrow
      rcases hm1 : ((df.filter (fun r => decide (r.user_id = u' ∧ target ≤ r.state))).map
          (fun r => r.session_number)).min? with _ | sn <;>
        rcases hm2 : ((df.filter (fun r => decide (r.user_id = u' ∧ target ≤ r.state))).map
          (fun r => r.session_start)).min? with _ | st <;>
          rw [hm1, hm2] at hin <;> simp only [] at hin
      · cases hin
      · cases hin
      · cases hin
      · rw [List.mem_map] at hin
        obtain ⟨fr, hfr, rfl⟩ := hin
        simp only [] at hu
        subst hu
        rw [List.mem_filter] at hfr
        have hfr2 := of_decide_eq_true hfr.2
        constructor
        · have hne : (df.filter (fun r => decide (r.user_id = u' ∧ target ≤ r.state))) ≠ [] := by
            intro hnil
            rw [hnil] at hm1
            cases hm1
          obtain ⟨r, hr⟩ := List.exists_mem_of_ne_nil _ hne
          rw [List.mem_filter] at hr
          have := of_decide_eq_true hr.2
          exact ⟨r, hr.1, this.1, this.2⟩
        · exact ⟨fr, hfr.1, hfr2.1, hfr2.2⟩
    · rintro ⟨⟨r1, hr1, hu1, hs1⟩, ⟨r2, hr2, hu2, hn2⟩⟩
      have husers : u ∈ stableSort (fun a b => decide (a ≤ b))
          ((df.map (fun r => r.user_id)).dedup) := by
        rw [mem_stableSort, List.mem_dedup, List.mem_map]
        exact ⟨r1, hr1, hu1⟩
      have hq1 : r1 ∈ df.filter (fun r => decide (r.user_id = u ∧ target ≤ r.state)) :=
        List.mem_filter.mpr ⟨hr1, by simp [hu1, hs1]⟩
      have hne : (df.filter (fun r => decide (r.user_id = u ∧ target ≤ r.state))) ≠ [] :=
        List.ne_nil_of_mem hq1
      rcases hm1 : ((df.filter (fun r => decide (r.user_id = u ∧ target ≤ r.state))).map
          (fun r => r.session_number)).min? with _ | sn
      · rw [List.min?_eq_none_iff, List.map_eq_nil_iff] at hm1
        exact absurd hm1 hne
      rcases hm2 : ((df.filter (fun r => decide (r.user_id = u ∧ target ≤ r.state))).map
          (fun r => r.session_start)).min? with _ | st
      · rw [List.min?_eq_none_iff, List.map_eq_nil_iff] at hm2
        exact absurd hm2 hne
      have hr2f : r2 ∈ df.filter (fun r => decide (r.user_id = u ∧ r.session_number = 1)) :=
        List.mem_filter.mpr ⟨hr2, by simp [hu2, hn2]⟩
      refine ⟨⟨u, sn, st, r2.session_start, ((st - r2.session_start : Int) : ℚ) / 86400⟩, ?_, rfl⟩
      rw [calculate_time_to_state, List.mem_flatMap]
      refine ⟨u, husers, ?_⟩
      rw [hm1, hm2]
      simp only []
      rw [List.mem_map]
      exact ⟨r2, hr2f, rfl⟩
  · intro row hrow
    rw [calculate_time_to_state, List.mem_flatMap] at hrow
    obtain ⟨u', _, hin⟩ := hrow
    rcases hm1 : ((df.filter (fun r => decide (r.user_id = u' ∧ target ≤ r.state))).map
        (fun r => r.session_number)).min? with _ | sn <;>
      rcases hm2 : ((df.filter (fun r => decide (r.user_id = u' ∧ target ≤ r.state))).map
        (fun r => r.session_start)).min? with _ | st <;>
        rw [hm1, hm2] at hin <;> simp only [] at hin
    · cases hin
    · cases hin
    · cases hin
    · rw [List.mem_map] at hin
      obtain ⟨fr, hfr, rfl⟩ := hin
      rw [List.mem_filter] at hfr
      have hfr2 := of_decide_eq_true hfr.2
      exact ⟨fr, hfr.1, hfr2.1, hfr2.2, rfl, rfl, hm1, hm2⟩

/-- Witness for C10: on `exampleTable` with target 3, user 2 (who reaches
state 3 in session 2 and has a session-1 row) appears in the result. -/
theorem time_to_state_semantics_witness :
    ∃ row ∈ calculate_time_to_state exampleTable 3, row.user_id = 2 :=
  ((time_to_state_semantics exampleTable 3).1 2).mpr
    ⟨⟨⟨⟨2, 2, 10, none, none, none, none, none⟩, 3⟩, by decide, by decide, by decide⟩,
     ⟨⟨⟨2, 1, 0, none, none, none, none, none⟩, 1⟩, by decide, by decide, by decide⟩⟩

/-- C7, evaluated at the failing input (the claim is right about the
intent but the code has a slip): on the empty table the state
distribution, both transition matrices (all cells 0 after reindex fill,
never NaN), and time-to-state return empty structures, and the flow
graph returns its static node scaffolding with an empty link list —
but `calculate_channel_metrics` does NOT degrade gracefully: with zero
groups its `groupby.apply` result lacks the `total_users` column and the
following `reset_index()`/`sort_values('total_users')` raises, the error
path of the embedding. -/
theorem metrics_empty_table (normalize : Bool) (i j target maxSessions : Nat) :
    calculate_state_distribution [] = [] ∧
    calculate_transition_matrix [] normalize i j = 0 ∧
    calculate_user_ever_transition_matrix [] normalize i j = 0 ∧
    calculate_channel_metrics [] =
      .error "zero-group apply result has no total_users column" ∧
    calculate_time_to_state [] target = [] ∧
    (build_sankey_data [] maxSessions).2 = [] ∧
    (build_sankey_data [] maxSessions).1 = sankeyNodes maxSessions := by
  refine ⟨rfl, ?_, ?_, rfl, rfl, ?_, rfl⟩
  · have hp : transitionPairs [] = [] := rfl
    cases normalize <;>
      simp [calculate_transition_matrix, transitionCount, transitionRowTotal, hp]
  · have h1 : everCount [] i j = 0 := rfl
    have h2 : usersEverInState [] i = 0 := rfl
    cases normalize <;>
      simp [calculate_user_ever_transition_matrix, h1, h2]
  · show sankeyLinks [] maxSessions = []
    have hat : ∀ k, sankeyLinksAt [] maxSessions k = [] := by
      intro k
      have hu : ∀ (k' s : Nat), users_by_session_state [] k' s = ∅ := by
        intro k' s
        rfl
      have hn : ∀ k' : Nat, sessionUsers [] k' = ∅ := by
        intro k'
        rfl
      unfold sankeyLinksAt
      simp [sankeyStates, hu, hn]
    unfold sankeyLinks
    rw [List.flatMap_eq_nil_iff]
    intro k _
    exact hat k

end STA
